import Mathlib

/-!
Verification development for the RDFa serializer (`rdfa.py`).

The serializer turns an RDF graph (a list of subject/predicate/object
statements) into a nested markup document.  We model the program state
(`__serialized` visited set, namespace tables, output stream) explicitly and
translate each method (`addNamespace`, `getQName`, `subject`, `predicate`,
`serialize`) into a Lean function.  Each `stream.write(...)` call in the
source is mirrored by appending one `Event` carrying exactly the data the
source interpolates into its format string.
-/

set_option linter.unusedVariables false

/-- RDF terms: IRI resources, blank nodes, literals (with optional language
and optional datatype), mirroring `URIRef`, `BNode`, `Literal`. -/
inductive Term where
  | uri (v : String)
  | bnode (id : String)
  | lit (lex : String) (lang : Option String) (dtype : Option String)
deriving DecidableEq, Repr

/-- One RDF statement (triple). -/
structure Stmt where
  subj : Term
  pred : Term
  obj : Term
deriving DecidableEq, Repr

/-- The graph/store collaborator: the list of statements (query results are
derived from it in list order, a deterministic rendering of rdflib's
iteration), plus the external compact-name computation of the store's
namespace manager (`compute_qname`, modelled as a fallible function: `none`
means the Python call raises) and `store.store.prefix`. -/
structure Store where
  statements : List Stmt
  computeQName : String → Option (String × String × String)
  prefixFn : String → Option String

/-- Output events, one per `write` call site of `subject`/`predicate`/
`serialize` (the root element writes and every element/attribute write). -/
inductive Event where
  | rootOpen
  | rootNs (pfx ns : String)
  | rootGt
  | rootClose
  | subjOpenAbout (ind : String) (ty : Option String) (about : String)
  | subjOpen (ind : String) (ty : Option String)
  | subjClose (ind : String)
  | propOpen (ind : String) (pq : Option String)
  | langAttr (lang : String)
  | datatypeAttr (dq : Option String)
  | contentAttr (content : String)
  | relOpen (ind : String) (pq : Option String)
  | resourceAttr (res : String)
  | gt
  | indentText (ind : String)
  | divEnd
  | inlistRef (ind : String) (pq : Option String) (res : String)
  | inlistProp (ind : String) (pq : Option String) (content : String)
deriving DecidableEq, Repr

/-- Mutable serializer state: the `__serialized` visited set, the
`self.namespaces` table, the `self._ns_rewrite` cache, and the output
stream written so far. -/
structure St where
  serialized : List Term
  namespaces : List (String × String)
  nsRewrite : List (String × String)
  output : List Event
deriving DecidableEq, Repr

/-- Per-call context: the store, the `base` argument and the effective
`max_depth` (all fixed for the duration of one `serialize` call). -/
structure Ctx where
  store : Store
  base : Option String
  maxDepth : Int

def strOfTerm : Term → String
  | .uri v => v
  | .bnode id => id
  | .lit lex _ _ => lex

def isURI : Term → Bool
  | .uri _ => true
  | _ => false

def isBNode : Term → Bool
  | .bnode _ => true
  | _ => false

/-- Kernel-computable prefix test on character lists. -/
def charListPre : List Char → List Char → Bool
  | [], _ => true
  | _ :: _, [] => false
  | a :: as, b :: bs => a == b && charListPre as bs

/-- Kernel-computable prefix test on strings (Python startswith). -/
def strStarts (s pre : String) : Bool := charListPre pre.data s.data

/-- Kernel-computable character membership test (Python `in`). -/
def strHasChar (s : String) (c : Char) : Bool := s.data.any (fun a => a == c)

/-- Python truthiness of an optional string attribute (`None` and `""` are
falsy). -/
def optTruthy : Option String → Bool
  | some s => s != ""
  | none => false

/-- Model of `fix`: strip a leading `_:` from node ids (source, bottom of file). -/
def fix (val : String) : String :=
  if strStarts val "_:" then val.drop 2 else val

/-- Model of `Serializer.relativize` from rdflib: strip the configured base prefix. -/
def relativize (base : Option String) (u : String) : String :=
  match base with
  | some b => if strStarts u b then u.drop b.length else u
  | none => u

def indentUnit : Nat → String
  | 0 => ""
  | n + 1 => "  " ++ indentUnit n

/-- The indentation string `"\n" + indent_string*depth`. -/
def indentStr (depth : Nat) : String := "\n" ++ indentUnit depth

def rdfType : Term := .uri "http://www.w3.org/1999/02/22-rdf-syntax-ns#type"
def rdfFirst : Term := .uri "http://www.w3.org/1999/02/22-rdf-syntax-ns#first"
def rdfRest : Term := .uri "http://www.w3.org/1999/02/22-rdf-syntax-ns#rest"
def rdfNil : Term := .uri "http://www.w3.org/1999/02/22-rdf-syntax-ns#nil"
def owlClass : Term := .uri "http://www.w3.org/2002/07/owl#Class"
def rdfsClass : Term := .uri "http://www.w3.org/2000/01/rdf-schema#Class"
def rdfsResource : Term := .uri "http://www.w3.org/2000/01/rdf-schema#Resource"

/-- First object of `(s, p, ?)` in statement order (`rdflib.util.first` over
`store.objects(s, p)`). -/
def firstObject (store : Store) (s p : Term) : Option Term :=
  (store.statements.find? (fun t => t.subj == s && t.pred == p)).map (·.obj)

/-- Membership test `(t, None, None) in store`. -/
def hasOutgoing (store : Store) (t : Term) : Bool :=
  store.statements.any (fun x => x.subj == t)

/-- Number of statements whose object is `t` (drives both
`more_than(store.triples((None, None, t)), n)` and
`len(list(store.subjects(object=t)))`). -/
def objCount (store : Store) (t : Term) : Nat :=
  (store.statements.filter (fun x => x.obj == t)).length

/-- Query `store.predicate_objects(s)` in statement order. -/
def predicateObjects (store : Store) (s : Term) : List (Term × Term) :=
  store.statements.filterMap (fun t => if t.subj == s then some (t.pred, t.obj) else none)

/-- Test that `(object, RDF.type, [OWL_NS.Class, RDFS.Class])` has a match
(`first(store.triples_choices(...))` is truthy). -/
def classTyped (store : Store) (t : Term) : Bool :=
  store.statements.any (fun x =>
    x.subj == t && x.pred == rdfType && (x.obj == owlClass || x.obj == rdfsClass))

/-- Truthiness of `first(store.objects(object, RDF.first))` (the collection
head test). -/
def listHeadTruthy (store : Store) (t : Term) : Bool :=
  match firstObject store t rdfFirst with
  | some x => strOfTerm x != ""
  | none => false

/-- Dictionary lookup on an association list (first entry wins). -/
def lookupS (l : List (String × String)) (k : String) : Option String :=
  (l.find? (fun kv => kv.1 == k)).map (fun kv => kv.2)

/-- Test `self.namespaces.get(prefix, namespace) != namespace`. -/
def nsCollides (tbl : List (String × String)) (pfx ns : String) : Bool :=
  match lookupS tbl pfx with
  | some n => n != ns
  | none => false

/-- The `while p in self.namespaces: p = "p" + p` loop, with enough fuel to
always find a free name (the candidates have strictly increasing lengths). -/
def genPfxAux (tbl : List (String × String)) : Nat → String → String
  | 0, p => p
  | n + 1, p =>
    if (tbl.find? (fun kv => kv.1 == p)).isSome then genPfxAux tbl n ("p" ++ p)
    else p

def genPfx (tbl : List (String × String)) (p : String) : String :=
  genPfxAux tbl (tbl.length + 1) p

/-- The trigger condition of `addNamespace`:
`(prefix > '' and prefix[0] == '_') or self.namespaces.get(prefix, namespace) != namespace`. -/
def rewriteCond (tbl : List (String × String)) (pfx ns : String) : Bool :=
  (pfx != "" && strStarts pfx "_") || nsCollides tbl pfx ns

/-- Pure core of `addNamespace`: takes the two tables, returns the prefix to
use and the updated `_ns_rewrite` table. -/
def addNamespaceCore (pfx ns : String) (tbl rewr : List (String × String)) :
    String × List (String × String) :=
  let rewr' :=
    if rewriteCond tbl pfx ns && (lookupS rewr pfx).isNone then
      (pfx, genPfx tbl ("p" ++ pfx)) :: rewr
    else rewr
  ((lookupS rewr' pfx).getD pfx, rewr')

/-- Model of `RdfaSerializer.addNamespace` (source lines 37-57). -/
def addNamespace (pfx ns : String) (st : St) : String × St :=
  let r := addNamespaceCore pfx ns st.namespaces st.nsRewrite
  (r.1, { st with nsRewrite := r.2 })

/-- The `parts` computation of `getQName` (source lines 63-77): try
`compute_qname`, fall back to asking whether the uri is itself a registered
namespace. -/
def qnameParts (store : Store) (u : String) : Option (String × String × String) :=
  match store.computeQName u with
  | some p => some p
  | none =>
    match store.prefixFn u with
    | some pfx => some (pfx, u, "")
    | none => none

/-- Pure core of `getQName`: compute the compact name of a term, updating the
`_ns_rewrite` table. -/
def getQNameCore (store : Store) (t : Term) (tbl rewr : List (String × String)) :
    Option String × List (String × String) :=
  match t with
  | .uri u =>
    match qnameParts store u with
    | none => (none, rewr)
    | some (pfx, ns, loc) =>
      if strHasChar loc '.' then (none, rewr)
      else
        let r := addNamespaceCore pfx ns tbl rewr
        (some (r.1 ++ ":" ++ loc), r.2)
  | _ => (none, rewr)

/-- Model of `RdfaSerializer.getQName` (source lines 59-84). -/
def getQName (ctx : Ctx) (t : Term) (st : St) : Option String × St :=
  let r := getQNameCore ctx.store t st.namespaces st.nsRewrite
  (r.1, { st with nsRewrite := r.2 })

/-- Append one write event to the output. -/
def emit (e : Event) (st : St) : St :=
  { st with output := st.output ++ [e] }

/-- Assignment `self.__serialized[t] = 1`. -/
def markVisited (t : Term) (st : St) : St :=
  if t ∈ st.serialized then st else { st with serialized := st.serialized ++ [t] }

/-- Rendering of one collection item (the three `inlist` write shapes of
source lines 206-210). -/
def renderItem (ctx : Ctx) (ind : String) (qp : Option String) (item : Term) : Event :=
  match item with
  | .bnode b => .inlistRef ind qp (fix b)
  | .uri u => .inlistRef ind qp (relativize ctx.base u)
  | .lit lex _ _ => .inlistProp ind qp lex

/-- The `for item in col:` loop of the collection branch (source lines
204-212): emit one element per item, mark every non-IRI item visited. -/
def collectionLoop (ctx : Ctx) (pd : Term) (ind : String) :
    List Term → St → St
  | [], st => st
  | item :: rest, st =>
    let q := getQName ctx pd st
    let st1 := emit (renderItem ctx ind q.1 item) q.2
    let st2 := if isURI item then st1 else markVisited item st1
    collectionLoop ctx pd ind rest st2

/-- Model of the `Collection(store, object)` iteration: follow the first/rest chain,
yielding each cell's `RDF.first` value, stopping when a cell has no
`RDF.rest` statement.  Fuel bounds the walk (the Python loop diverges on a
cyclic `rest` chain; well-formed chains terminate within the fuel). -/
def chainToListAux (store : Store) : Nat → Term → List Term
  | 0, _ => []
  | fuel + 1, node =>
    let item := firstObject store node rdfFirst
    let rest := firstObject store node rdfRest
    (match item with | some i => [i] | none => []) ++
    (match rest with | some r => chainToListAux store fuel r | none => [])

def chainToList (store : Store) (head : Term) : List Term :=
  chainToListAux store (store.statements.length + 1) head

/-- Literal branch of `predicate` (source lines 176-183). -/
def literalCase (ctx : Ctx) (pd : Term) (ind : String)
    (lex : String) (lang dtype : Option String) (st : St) : St :=
  let q := getQName ctx pd st
  let st1 := emit (.propOpen ind q.1) q.2
  let st2 :=
    if optTruthy lang then emit (.langAttr (lang.getD "")) st1
    else if optTruthy dtype then
      let qd := getQName ctx (.uri (dtype.getD "")) st1
      emit (.datatypeAttr qd.1) qd.2
    else st1
  emit .divEnd (emit (.contentAttr lex) st2)

/-- Reference branch of `predicate` for already-serialized objects or
objects without outgoing statements (source lines 184-190). -/
def refCase (ctx : Ctx) (pd obj : Term) (ind : String) (st : St) : St :=
  let q := getQName ctx pd st
  let st1 := emit (.relOpen ind q.1) q.2
  let st2 :=
    match obj with
    | .bnode id =>
      if 0 < objCount ctx.store (.bnode id) then emit (.resourceAttr (fix id)) st1
      else emit (.resourceAttr (relativize ctx.base id)) st1
    | _ => emit (.resourceAttr (relativize ctx.base (strOfTerm obj))) st1
  emit .divEnd st2

/-- Collection branch of `predicate` (source lines 192-212): mark the head
visited, then flatten the chain.  The `warnings.warn` call is a diagnostic
to the warnings module, not output. -/
def collectionCase (ctx : Ctx) (pd obj : Term) (ind : String) (st : St) : St :=
  let st1 := markVisited obj st
  collectionLoop ctx pd ind (chainToList ctx.store obj) st1

/-- rdf:type object selection of `subject` (source lines 147-152): take the
first type object; `nm.qname(type)` raising (modelled as `compute_qname`
failing, or the term not being an IRI) resets it to `None`. -/
def selectType (store : Store) (s : Term) : Option Term :=
  match firstObject store s rdfType with
  | some (.uri u) => if (store.computeQName u).isSome then some (.uri u) else none
  | _ => none

/-- Selection `element = type or RDFS.Resource` (Python truthiness on the term). -/
def elementOf (ty : Option Term) : Term :=
  match ty with
  | some t => if strOfTerm t = "" then rdfsResource else t
  | none => rdfsResource

/-- Skip filter of the predicate loop (source line 166):
`not (predicate == RDF.type and object == type)`. -/
def skipPair (ty : Option Term) (po : Term × Term) : Bool :=
  match ty with
  | some t => po.1 == rdfType && po.2 == t
  | none => false

/-- The opening-block write of `subject` (source lines 156-162): a blank
node referenced by more than one statement gets an `about` attribute with
its fixed-up id, a blank node referenced at most once gets none, an IRI
resource gets its (relativized) IRI. -/
def openEvent (ctx : Ctx) (s : Term) (ind : String) (q : Option String) : Event :=
  match s with
  | .bnode id =>
    if 1 < objCount ctx.store (.bnode id) then .subjOpenAbout ind q (fix id)
    else .subjOpen ind q
  | _ => .subjOpenAbout ind q (relativize ctx.base (strOfTerm s))

mutual

/-- Model of `RdfaSerializer.subject` (source lines 140-169), with explicit fuel for
the mutual recursion (fuel 0 is never reached on runs started with the
driver's fuel budget). -/
def subject (ctx : Ctx) : Nat → Term → Nat → St → St
  | 0, _, _, st => st
  | fuel + 1, s, depth, st =>
    if s ∈ st.serialized then st
    else
      let ind := indentStr depth
      let st1 := markVisited s st
      let ty := selectType ctx.store s
      let el := elementOf ty
      let q := getQName ctx el st1
      let st2 := emit (openEvent ctx s ind q.1) q.2
      let st3 :=
        if hasOutgoing ctx.store s then
          (predicateObjects ctx.store s).foldl
            (fun acc po =>
              if skipPair ty po then acc
              else predicate ctx fuel po.1 po.2 (depth + 1) acc)
            st2
        else st2
      emit (.subjClose ind) st3

/-- Model of `RdfaSerializer.predicate` (source lines 171-242). -/
def predicate (ctx : Ctx) : Nat → Term → Term → Nat → St → St
  | 0, _, _, _, st => st
  | fuel + 1, pd, .lit lex lang dtype, depth, st =>
    literalCase ctx pd (indentStr depth) lex lang dtype st
  | fuel + 1, pd, obj, depth, st =>
    let ind := indentStr depth
    if obj ∈ st.serialized || !hasOutgoing ctx.store obj then
        refCase ctx pd obj ind st
      else if listHeadTruthy ctx.store obj then
        collectionCase ctx pd obj ind st
      else
        let q := getQName ctx pd st
        let st2 := emit (.relOpen ind q.1) q.2
        let st3 :=
          if classTyped ctx.store obj && isURI obj then
            emit (.resourceAttr (relativize ctx.base (strOfTerm obj))) st2
          else if (depth : Int) ≤ ctx.maxDepth then
            emit (.indentText ind) (subject ctx fuel obj (depth + 1) (emit .gt st2))
          else
            match obj with
            | .bnode id =>
              if !(Term.bnode id ∈ st2.serialized) && hasOutgoing ctx.store obj
                  && (objCount ctx.store obj == 1) then
                emit (.indentText ind) (subject ctx fuel obj (depth + 1) (emit .gt st2))
              else emit (.resourceAttr (fix id)) st2
            | _ => emit (.resourceAttr (relativize ctx.base (strOfTerm obj))) st2
        emit .divEnd st3

end

/-- Deterministic rendering of a Python set built incrementally: first
occurrence order, duplicates dropped. -/
def dedupFirst (l : List Term) : List Term :=
  l.foldl (fun acc t => if t ∈ acc then acc else acc ++ [t]) []

/-- Python dict assignment: overwrite in place, else append. -/
def dictInsert (l : List (String × String)) (k v : String) : List (String × String) :=
  if l.any (fun kv => kv.1 == k) then
    l.map (fun kv => if kv.1 == k then (k, v) else kv)
  else l ++ [(k, v)]

/-- Root namespace collection of `serialize` (source lines 97-106): all
predicates, rdf:type objects and literal datatypes; `nm.compute_qname`
raising propagates out of `serialize` (modelled as an error). -/
def rootNamespaces (store : Store) : Except String (List (String × String)) :=
  let preds := store.statements.map (·.pred)
  let typeObjs := store.statements.filterMap
    (fun t => if t.pred == rdfType then some t.obj else none)
  let dts := store.statements.filterMap
    (fun t =>
      match t.obj with
      | .lit _ _ (some d) => if d != "" then some (Term.uri d) else none
      | _ => none)
  (dedupFirst (preds ++ typeObjs ++ dts)).foldlM
    (fun acc t =>
      match store.computeQName (strOfTerm t) with
      | some (pfx, ns, _) => .ok (dictInsert acc pfx ns)
      | none => .error "compute_qname failed")
    [("rdf", "http://www.w3.org/1999/02/22-rdf-syntax-ns#")]

/-- First pass of `serialize` (source lines 114-120): subjects that cannot
be inlined (not used as an object, or looping onto themselves). -/
def pass1 (ctx : Ctx) (fuel : Nat) (subjects : List Term) (st : St) : St :=
  subjects.foldl
    (fun acc s =>
      if objCount ctx.store s > 0 then
        if ctx.store.statements.any (fun t => t.subj == s && t.obj == s) then
          subject ctx fuel s 1 acc
        else acc
      else subject ctx fuel s 1 acc)
    st

/-- Second pass (source lines 122-129): collect blank-node subjects, emit
everything else not yet reached. -/
def pass2 (ctx : Ctx) (fuel : Nat) (subjects : List Term) (st : St) :
    St × List Term :=
  subjects.foldl
    (fun (acc : St × List Term) s =>
      match s with
      | .bnode id =>
        (acc.1, if Term.bnode id ∈ acc.2 then acc.2 else acc.2 ++ [Term.bnode id])
      | _ => (subject ctx fuel s 1 acc.1, acc.2))
    (st, [])

/-- Final sweep (source lines 131-134).  The source reads
`self.subject(subject, 1)`, reusing the *stale* loop variable of the second
pass (the last element of `store.subjects()`) instead of `bnode`; the model
preserves that slip faithfully. -/
def pass3 (ctx : Ctx) (fuel : Nat) (bnodes : List Term) (lastSubj : Option Term)
    (st : St) : St :=
  bnodes.foldl
    (fun acc b =>
      if b ∈ acc.serialized then acc
      else
        match lastSubj with
        | some s => subject ctx fuel s 1 acc
        | none => acc)
    st

/-- Fuel budget for the recursion; generous (each two levels of call
nesting visit a previously unvisited term, except one final bounded step). -/
def serializeFuel (store : Store) : Nat :=
  4 * store.statements.length + 4

/-- The serializer object: `__init__` stores the graph and creates the two
(empty) namespace tables.  Its `max_depth` argument is accepted and
discarded, exactly as in the source (lines 32-35). -/
structure SerializerObj where
  store : Store
  namespaces : List (String × String)
  nsRewrite : List (String × String)

def initSerializer (store : Store) (max_depth : Int) : SerializerObj :=
  { store := store, namespaces := [], nsRewrite := [] }

/-- Model of `RdfaSerializer.serialize` (source lines 86-137): returns the error
raised (if any) together with the final state; the output stream is
`(serializeRun ...).2.output`.  The `max_depth` assertion fires before the
root element is written, so an error implies an empty output. -/
def serializeRun (obj : SerializerObj) (base : Option String)
    (argMaxDepth : Option Int) : Option String × St :=
  let st0 : St :=
    { serialized := [], namespaces := obj.namespaces,
      nsRewrite := obj.nsRewrite, output := [] }
  let md := argMaxDepth.getD 3
  if md ≤ 0 then (some "max_depth must be greater than 0", st0)
  else
    match rootNamespaces obj.store with
    | .error e => (some e, st0)
    | .ok nss =>
      let ctx : Ctx := { store := obj.store, base := base, maxDepth := md }
      let fuel := serializeFuel obj.store
      let st1 := emit .rootGt (nss.foldl (fun acc kv => emit (.rootNs kv.1 kv.2) acc) (emit .rootOpen st0))
      let subjects := obj.store.statements.map (·.subj)
      let st2 := pass1 ctx fuel subjects st1
      let p2 := pass2 ctx fuel subjects st2
      let st3 := pass3 ctx fuel p2.2 subjects.getLast? p2.1
      (none, emit .rootClose st3)

/-! Concrete stores used to settle the claims on explicit inputs. -/

/-- Compact-name table shared by the concrete stores. -/
def exQName : String → Option (String × String × String) := fun u =>
  if u == "http://ex/p" then some ("ex", "http://ex/", "p")
  else if u == "http://ex/q" then some ("ex", "http://ex/", "q")
  else if u == "http://www.w3.org/2000/01/rdf-schema#Resource" then
    some ("rdfs", "http://www.w3.org/2000/01/rdf-schema#", "Resource")
  else none

def exP : Term := .uri "http://ex/p"
def exQ : Term := .uri "http://ex/q"

/-- Chain A→B→C→D of ordinary IRI resources (claim C1). -/
def chainStore : Store :=
  { statements :=
      [ ⟨.uri "http://ex/A", exP, .uri "http://ex/B"⟩,
        ⟨.uri "http://ex/B", exP, .uri "http://ex/C"⟩,
        ⟨.uri "http://ex/C", exP, .uri "http://ex/D"⟩ ],
    computeQName := exQName,
    prefixFn := fun _ => none }

/-- A blank node `b` referenced twice, both references only reachable beyond
the depth limit, so the final sweep is the only pass that could materialize
it (claim C2). -/
def sweepStore : Store :=
  { statements :=
      [ ⟨.bnode "b", exQ, .lit "v" none none⟩,
        ⟨.uri "http://ex/A", exP, .uri "http://ex/U1"⟩,
        ⟨.uri "http://ex/U1", exP, .bnode "b"⟩,
        ⟨.uri "http://ex/C", exP, .uri "http://ex/U2"⟩,
        ⟨.uri "http://ex/U2", exP, .bnode "b"⟩ ],
    computeQName := exQName,
    prefixFn := fun _ => none }

def emptyStore : Store :=
  { statements := [], computeQName := fun _ => none, prefixFn := fun _ => none }

def emptyCtx : Ctx := { store := emptyStore, base := none, maxDepth := 3 }

/-- A single-reference blank node with outgoing statements (witness for the
depth-exempt inlining rule, claim C6). -/
def singleRefStore : Store :=
  { statements :=
      [ ⟨.uri "http://ex/X", exP, .bnode "n6"⟩,
        ⟨.bnode "n6", exQ, .lit "v" none none⟩ ],
    computeQName := exQName,
    prefixFn := fun _ => none }

/-- A single-reference blank node that is also a collection head
(counterexample for claim C6). -/
def bnodeListStore : Store :=
  { statements :=
      [ ⟨.uri "http://ex/X", exP, .bnode "l"⟩,
        ⟨.bnode "l", rdfFirst, .lit "1" none none⟩,
        ⟨.bnode "l", rdfRest, rdfNil⟩ ],
    computeQName := exQName,
    prefixFn := fun _ => none }

/-- A class-typed IRI resource (witness for claim C7). -/
def classRefStore : Store :=
  { statements :=
      [ ⟨.uri "http://ex/S", exP, .uri "http://ex/O"⟩,
        ⟨.uri "http://ex/O", rdfType, owlClass⟩,
        ⟨.uri "http://ex/O", exQ, .lit "v" none none⟩ ],
    computeQName := exQName,
    prefixFn := fun _ => none }

/-- A class-typed IRI resource that is also a collection head
(counterexample for claim C7). -/
def classListStore : Store :=
  { statements :=
      [ ⟨.uri "http://ex/S", exP, .uri "http://ex/O"⟩,
        ⟨.uri "http://ex/O", rdfType, owlClass⟩,
        ⟨.uri "http://ex/O", rdfFirst, .lit "1" none none⟩,
        ⟨.uri "http://ex/O", rdfRest, rdfNil⟩ ],
    computeQName := exQName,
    prefixFn := fun _ => none }

/-- A blank node subject with no references (witness for claim C8). -/
def loneBnodeStore : Store :=
  { statements := [ ⟨.bnode "x8", exP, .lit "w" none none⟩ ],
    computeQName := exQName,
    prefixFn := fun _ => none }

/-- A two-element collection chain (witness for claim C9). -/
def listStore : Store :=
  { statements :=
      [ ⟨.bnode "l1", rdfFirst, .lit "1" none none⟩,
        ⟨.bnode "l1", rdfRest, .bnode "l2"⟩,
        ⟨.bnode "l2", rdfFirst, .lit "2" none none⟩,
        ⟨.bnode "l2", rdfRest, rdfNil⟩ ],
    computeQName := exQName,
    prefixFn := fun _ => none }

def stEmpty : St := { serialized := [], namespaces := [], nsRewrite := [], output := [] }

/-! Frame lemmas: which state fields each primitive touches. -/

theorem emit_serialized (e : Event) (st : St) : (emit e st).serialized = st.serialized := rfl

theorem emit_namespaces (e : Event) (st : St) : (emit e st).namespaces = st.namespaces := rfl

theorem emit_nsRewrite (e : Event) (st : St) : (emit e st).nsRewrite = st.nsRewrite := rfl

theorem emit_output (e : Event) (st : St) : (emit e st).output = st.output ++ [e] := rfl

theorem markVisited_output (t : Term) (st : St) : (markVisited t st).output = st.output := by
  unfold markVisited; split <;> rfl

theorem markVisited_namespaces (t : Term) (st : St) :
    (markVisited t st).namespaces = st.namespaces := by
  unfold markVisited; split <;> rfl

theorem markVisited_nsRewrite (t : Term) (st : St) :
    (markVisited t st).nsRewrite = st.nsRewrite := by
  unfold markVisited; split <;> rfl

theorem markVisited_mem (t x : Term) (st : St) :
    x ∈ (markVisited t st).serialized ↔ x ∈ st.serialized ∨ x = t := by
  unfold markVisited
  by_cases h : t ∈ st.serialized
  · rw [if_pos h]
    constructor
    · exact Or.inl
    · rintro (hx | rfl)
      · exact hx
      · exact h
  · rw [if_neg h]
    simp [List.mem_append]

theorem markVisited_self (t : Term) (st : St) : t ∈ (markVisited t st).serialized := by
  rw [markVisited_mem]; exact Or.inr rfl

theorem getQName_serialized (ctx : Ctx) (t : Term) (st : St) :
    ((getQName ctx t st).2).serialized = st.serialized := rfl

theorem getQName_namespaces (ctx : Ctx) (t : Term) (st : St) :
    ((getQName ctx t st).2).namespaces = st.namespaces := rfl

theorem getQName_output (ctx : Ctx) (t : Term) (st : St) :
    ((getQName ctx t st).2).output = st.output := rfl

/-! Step discipline: every emitter step only grows the visited set and only
appends to the output stream. -/

def StepOK (st st' : St) : Prop :=
  (∀ x, x ∈ st.serialized → x ∈ st'.serialized) ∧ ∃ δ, st'.output = st.output ++ δ

theorem stepOK_refl (st : St) : StepOK st st :=
  ⟨fun _ h => h, [], by simp⟩

theorem stepOK_trans {a b c : St} (h1 : StepOK a b) (h2 : StepOK b c) : StepOK a c := by
  obtain ⟨m1, d1, hd1⟩ := h1
  obtain ⟨m2, d2, hd2⟩ := h2
  exact ⟨fun x hx => m2 x (m1 x hx), d1 ++ d2, by rw [hd2, hd1, List.append_assoc]⟩

theorem stepOK_emit {a b : St} (e : Event) (h : StepOK a b) : StepOK a (emit e b) := by
  refine stepOK_trans h ⟨fun x hx => hx, [e], rfl⟩

theorem stepOK_markVisited {a b : St} (t : Term) (h : StepOK a b) :
    StepOK a (markVisited t b) := by
  refine stepOK_trans h ⟨fun x hx => (markVisited_mem t x b).mpr (Or.inl hx), [], ?_⟩
  rw [markVisited_output]; simp

theorem stepOK_getQName {a b : St} (ctx : Ctx) (t : Term) (h : StepOK a b) :
    StepOK a ((getQName ctx t b).2) :=
  stepOK_trans h ⟨fun x hx => hx, [], by rw [getQName_output]; simp⟩

theorem stepOK_foldl {α : Type} {f : St → α → St} (l : List α) {a : St} {b : St}
    (h0 : StepOK a b) (hstep : ∀ st x, StepOK st (f st x)) :
    StepOK a (l.foldl f b) := by
  induction l generalizing b with
  | nil => exact h0
  | cons x xs ih => exact ih (stepOK_trans h0 (hstep b x))

theorem stepOK_literalCase (ctx : Ctx) (pd : Term) (ind lex : String)
    (lang dtype : Option String) (st : St) : StepOK st (literalCase ctx pd ind lex lang dtype st) := by
  unfold literalCase
  have h1 : StepOK st (emit (.propOpen ind (getQName ctx pd st).1) (getQName ctx pd st).2) :=
    stepOK_emit _ (stepOK_getQName ctx pd (stepOK_refl st))
  apply stepOK_emit
  apply stepOK_emit
  split
  · exact stepOK_emit _ h1
  split
  · exact stepOK_emit _ (stepOK_getQName ctx _ h1)
  · exact h1

theorem stepOK_refCase (ctx : Ctx) (pd obj : Term) (ind : String) (st : St) :
    StepOK st (refCase ctx pd obj ind st) := by
  unfold refCase
  apply stepOK_emit
  have hbase : StepOK st (emit (.relOpen ind (getQName ctx pd st).1) (getQName ctx pd st).2) :=
    stepOK_emit _ (stepOK_getQName ctx pd (stepOK_refl st))
  split
  · split
    · exact stepOK_emit _ hbase
    · exact stepOK_emit _ hbase
  · exact stepOK_emit _ hbase

theorem stepOK_collectionLoop (ctx : Ctx) (pd : Term) (ind : String)
    (items : List Term) (st : St) : StepOK st (collectionLoop ctx pd ind items st) := by
  induction items generalizing st with
  | nil => exact stepOK_refl st
  | cons item rest ih =>
    rw [collectionLoop]
    refine stepOK_trans ?_ (ih _)
    split
    · exact stepOK_emit _ (stepOK_getQName ctx pd (stepOK_refl st))
    · exact stepOK_markVisited _ (stepOK_emit _ (stepOK_getQName ctx pd (stepOK_refl st)))

theorem stepOK_collectionCase (ctx : Ctx) (pd obj : Term) (ind : String) (st : St) :
    StepOK st (collectionCase ctx pd obj ind st) := by
  unfold collectionCase
  exact stepOK_trans (stepOK_markVisited _ (stepOK_refl st)) (stepOK_collectionLoop ctx pd ind _ _)

/-- Both emitters obey the step discipline, for every fuel. -/
theorem stepOK_emitters (ctx : Ctx) : ∀ fuel : Nat,
    (∀ s depth st, StepOK st (subject ctx fuel s depth st)) ∧
    (∀ pd obj depth st, StepOK st (predicate ctx fuel pd obj depth st)) := by
  intro fuel
  induction fuel with
  | zero => exact ⟨fun _ _ st => stepOK_refl st, fun _ _ _ st => stepOK_refl st⟩
  | succ n ih =>
    obtain ⟨ihs, ihp⟩ := ih
    constructor
    · intro s depth st
      rw [subject]
      split
      · exact stepOK_refl st
      · apply stepOK_emit
        have hbase : StepOK st
            (emit (openEvent ctx s (indentStr depth)
                (getQName ctx (elementOf (selectType ctx.store s)) (markVisited s st)).1)
              (getQName ctx (elementOf (selectType ctx.store s)) (markVisited s st)).2) :=
          stepOK_emit _ (stepOK_getQName ctx _ (stepOK_markVisited s (stepOK_refl st)))
        split
        · refine stepOK_foldl _ hbase ?_
          intro st' x
          split
          · exact stepOK_refl st'
          · exact ihp x.1 x.2 (depth + 1) st'
        · exact hbase
    · intro pd obj depth st
      have hbase : StepOK st
          (emit (Event.relOpen (indentStr depth) (getQName ctx pd st).1) (getQName ctx pd st).2) :=
        stepOK_emit _ (stepOK_getQName ctx pd (stepOK_refl st))
      rcases obj with u | id | ⟨lex, lang, dtype⟩
      · rw [predicate]
        rotate_left
        · intro lex lang dtype h
          exact Term.noConfusion h
        split
        · exact stepOK_refCase ctx pd _ _ st
        split
        · exact stepOK_collectionCase ctx pd _ _ st
        · apply stepOK_emit
          split
          · exact stepOK_emit _ hbase
          split
          · exact stepOK_emit _ (stepOK_trans (stepOK_emit _ hbase) (ihs _ _ _))
          · dsimp only
            exact stepOK_emit _ hbase
      · rw [predicate]
        rotate_left
        · intro lex lang dtype h
          exact Term.noConfusion h
        split
        · exact stepOK_refCase ctx pd _ _ st
        split
        · exact stepOK_collectionCase ctx pd _ _ st
        · apply stepOK_emit
          split
          · exact stepOK_emit _ hbase
          split
          · exact stepOK_emit _ (stepOK_trans (stepOK_emit _ hbase) (ihs _ _ _))
          · dsimp only
            split
            · exact stepOK_emit _ (stepOK_trans (stepOK_emit _ hbase) (ihs _ _ _))
            · exact stepOK_emit _ hbase
      · rw [predicate]
        exact stepOK_literalCase ctx pd _ lex lang dtype st

/-- The predicate-loop step of `subject` obeys the step discipline. -/
theorem stepOK_predLoopStep (ctx : Ctx) (fuel : Nat) (ty : Option Term) (depth : Nat) :
    ∀ (st' : St) (x : Term × Term), StepOK st'
      (if skipPair ty x then st' else predicate ctx fuel x.1 x.2 (depth + 1) st') := by
  intro st' x
  split
  · exact stepOK_refl st'
  · exact (stepOK_emitters ctx fuel).2 x.1 x.2 (depth + 1) st'

/-- A subject handed to the emitter is in the visited set afterwards
(either it already was, or the emitter marks it first thing). -/
theorem subject_marks (ctx : Ctx) (fuel : Nat) (s : Term) (depth : Nat) (st : St) :
    s ∈ (subject ctx (fuel + 1) s depth st).serialized := by
  rw [subject]
  by_cases hv : s ∈ st.serialized
  · rw [if_pos hv]; exact hv
  · rw [if_neg hv]
    rw [emit_serialized]
    have hs2 : s ∈ (emit (openEvent ctx s (indentStr depth)
        (getQName ctx (elementOf (selectType ctx.store s)) (markVisited s st)).1)
        (getQName ctx (elementOf (selectType ctx.store s)) (markVisited s st)).2).serialized := by
      rw [emit_serialized, getQName_serialized]
      exact markVisited_self s st
    split
    · exact (stepOK_foldl _ (stepOK_refl _) (stepOK_predLoopStep ctx fuel _ depth)).1 s hs2
    · exact hs2

/-- On an unvisited subject, the first write of the emitter is the opening
block, and everything else is appended after it. -/
theorem subject_open (ctx : Ctx) (fuel : Nat) (s : Term) (depth : Nat) (st : St)
    (hnv : s ∉ st.serialized) :
    ∃ δ, (subject ctx (fuel + 1) s depth st).output =
      st.output ++ (openEvent ctx s (indentStr depth)
        (getQName ctx (elementOf (selectType ctx.store s)) (markVisited s st)).1 :: δ) := by
  rw [subject, if_neg hnv]
  have hst2 : (emit (openEvent ctx s (indentStr depth)
      (getQName ctx (elementOf (selectType ctx.store s)) (markVisited s st)).1)
      (getQName ctx (elementOf (selectType ctx.store s)) (markVisited s st)).2).output =
      st.output ++ [openEvent ctx s (indentStr depth)
        (getQName ctx (elementOf (selectType ctx.store s)) (markVisited s st)).1] := by
    rw [emit_output, getQName_output, markVisited_output]
  have hif : StepOK
      (emit (openEvent ctx s (indentStr depth)
        (getQName ctx (elementOf (selectType ctx.store s)) (markVisited s st)).1)
        (getQName ctx (elementOf (selectType ctx.store s)) (markVisited s st)).2)
      (if hasOutgoing ctx.store s then
        (predicateObjects ctx.store s).foldl
          (fun acc po => if skipPair (selectType ctx.store s) po then acc
            else predicate ctx fuel po.1 po.2 (depth + 1) acc)
          (emit (openEvent ctx s (indentStr depth)
            (getQName ctx (elementOf (selectType ctx.store s)) (markVisited s st)).1)
            (getQName ctx (elementOf (selectType ctx.store s)) (markVisited s st)).2)
      else
        emit (openEvent ctx s (indentStr depth)
          (getQName ctx (elementOf (selectType ctx.store s)) (markVisited s st)).1)
          (getQName ctx (elementOf (selectType ctx.store s)) (markVisited s st)).2) := by
    split
    · exact stepOK_foldl _ (stepOK_refl _) (stepOK_predLoopStep ctx fuel _ depth)
    · exact stepOK_refl _
  obtain ⟨δ1, hδ1⟩ := hif.2
  refine ⟨δ1 ++ [.subjClose (indentStr depth)], ?_⟩
  rw [emit_output, hδ1, hst2]
  simp

/-! Freshness and stability of the prefix-rewrite machinery. -/

/-- Number of table keys at least as long as `n`; the decreasing measure of
the rewrite loop. -/
def keysAtLeast (tbl : List (String × String)) (n : Nat) : Nat :=
  tbl.countP (fun kv => decide (n ≤ kv.1.length))

theorem keysAtLeast_le (tbl : List (String × String)) (n : Nat) :
    keysAtLeast tbl n ≤ tbl.length :=
  List.countP_le_length _

theorem keysAtLeast_mono (tbl : List (String × String)) (n : Nat) :
    keysAtLeast tbl (n + 1) ≤ keysAtLeast tbl n := by
  unfold keysAtLeast
  induction tbl with
  | nil => simp
  | cons a t ih =>
    rw [List.countP_cons, List.countP_cons]
    by_cases h1 : (n + 1 : Nat) ≤ a.1.length
    · rw [decide_eq_true h1, decide_eq_true (by omega : n ≤ a.1.length)]
      simpa using ih
    · rw [decide_eq_false h1]
      cases hd : decide (n ≤ a.1.length) <;> simp <;> omega

theorem keysAtLeast_strict (tbl : List (String × String)) (n : Nat)
    (x : String × String) (hx : x ∈ tbl) (hlen : x.1.length = n) :
    keysAtLeast tbl (n + 1) < keysAtLeast tbl n := by
  unfold keysAtLeast
  induction tbl with
  | nil => cases hx
  | cons a t ih =>
    rw [List.countP_cons, List.countP_cons]
    rcases List.mem_cons.mp hx with rfl | hx
    · rw [decide_eq_true (by omega : n ≤ x.1.length),
        decide_eq_false (by omega : ¬(n + 1 : Nat) ≤ x.1.length)]
      have := keysAtLeast_mono t n
      unfold keysAtLeast at this
      have e1 : (if (true : Bool) = true then 1 else 0) = 1 := rfl
      have e0 : (if (false : Bool) = true then 1 else 0) = 0 := rfl
      rw [e1, e0]
      omega
    · have hstrict := ih hx
      by_cases h1 : (n + 1 : Nat) ≤ a.1.length
      · rw [decide_eq_true h1, decide_eq_true (by omega : n ≤ a.1.length)]
        omega
      · rw [decide_eq_false h1]
        cases hd : decide (n ≤ a.1.length) <;> simp <;> omega

theorem find?_isNone_of_notMem (tbl : List (String × String)) (p : String)
    (h : ∀ kv ∈ tbl, kv.1 ≠ p) : tbl.find? (fun kv => kv.1 == p) = none := by
  rw [List.find?_eq_none]
  intro kv hkv
  simpa using h kv hkv

/-- The rewrite loop returns a name absent from the table, provided the fuel
exceeds the number of keys at least as long as the seed (pigeonhole: the
candidates strictly grow in length). -/
theorem genPfxAux_fresh (tbl : List (String × String)) :
    ∀ (n : Nat) (p : String), keysAtLeast tbl p.length < n →
      tbl.find? (fun kv => kv.1 == genPfxAux tbl n p) = none := by
  intro n
  induction n with
  | zero => intro p h; omega
  | succ m ih =>
    intro p h
    rw [genPfxAux]
    by_cases hf : (tbl.find? (fun kv => kv.1 == p)).isSome = true
    · rw [if_pos hf]
      obtain ⟨x, hfind⟩ := Option.isSome_iff_exists.mp hf
      have hxmem : x ∈ tbl := List.mem_of_find?_eq_some hfind
      have hxkey : x.1 = p := by simpa using List.find?_some hfind
      apply ih
      have hlen : ("p" ++ p).length = p.length + 1 := by
        rw [String.length_append]
        have h1 : ("p" : String).length = 1 := rfl
        omega
      rw [hlen]
      have := keysAtLeast_strict tbl p.length x hxmem (by rw [hxkey])
      omega
    · rw [if_neg hf]
      exact Option.not_isSome_iff_eq_none.mp hf

theorem genPfx_fresh (tbl : List (String × String)) (p : String) :
    tbl.find? (fun kv => kv.1 == genPfx tbl p) = none := by
  apply genPfxAux_fresh
  exact Nat.lt_succ_of_le (keysAtLeast_le tbl p.length)

/-- Iterated marker prepending: `prependP k p` is `k` copies of the marker
in front of `p`. -/
def prependP : Nat → String → String
  | 0, p => p
  | k + 1, p => "p" ++ prependP k p

theorem prependP_shift (k : Nat) (p : String) :
    prependP k ("p" ++ p) = prependP (k + 1) p := by
  induction k with
  | zero => rfl
  | succ m ih => rw [prependP, ih]; rfl

theorem genPfxAux_shape (tbl : List (String × String)) :
    ∀ (n : Nat) (p : String), ∃ k, genPfxAux tbl n p = prependP k p := by
  intro n
  induction n with
  | zero => exact fun p => ⟨0, rfl⟩
  | succ m ih =>
    intro p
    rw [genPfxAux]
    by_cases hf : (tbl.find? (fun kv => kv.1 == p)).isSome = true
    · rw [if_pos hf]
      obtain ⟨k, hk⟩ := ih ("p" ++ p)
      exact ⟨k + 1, by rw [hk, prependP_shift]⟩
    · rw [if_neg hf]
      exact ⟨0, rfl⟩

theorem lookupS_cons_self (k v : String) (l : List (String × String)) :
    lookupS ((k, v) :: l) k = some v := by
  simp [lookupS, List.find?_cons]

/-- A call whose original prefix is already in the rewrite cache returns the
cached rewrite and changes nothing (for any namespace argument). -/
theorem addNamespaceCore_cached (pfx ns : String) (tbl rewr : List (String × String))
    (q : String) (hq : lookupS rewr pfx = some q) :
    addNamespaceCore pfx ns tbl rewr = (q, rewr) := by
  unfold addNamespaceCore
  have h1 : (lookupS rewr pfx).isNone = false := by rw [hq]; rfl
  rw [h1, Bool.and_false, if_neg (by simp)]
  simp [hq]

/-- A triggered call with an uncached prefix generates the fresh name and
caches it under the original prefix. -/
theorem addNamespaceCore_fresh (pfx ns : String) (tbl rewr : List (String × String))
    (htrig : rewriteCond tbl pfx ns = true) (hnc : lookupS rewr pfx = none) :
    addNamespaceCore pfx ns tbl rewr =
      (genPfx tbl ("p" ++ pfx), (pfx, genPfx tbl ("p" ++ pfx)) :: rewr) := by
  unfold addNamespaceCore
  have h1 : (lookupS rewr pfx).isNone = true := by rw [hnc]; rfl
  rw [htrig, h1, Bool.and_self, if_pos rfl]
  simp [lookupS_cons_self]

/-- An untriggered call leaves the cache alone and returns the cached
rewrite if one exists, else the prefix itself. -/
theorem addNamespaceCore_untriggered (pfx ns : String) (tbl rewr : List (String × String))
    (htrig : rewriteCond tbl pfx ns = false) :
    addNamespaceCore pfx ns tbl rewr = ((lookupS rewr pfx).getD pfx, rewr) := by
  unfold addNamespaceCore
  rw [htrig, Bool.false_and, if_neg (by simp)]

/-- Repeating a call with the same arguments returns the same prefix and
leaves the state fixed. -/
theorem addNamespaceCore_stable (pfx ns : String) (tbl rewr : List (String × String)) :
    addNamespaceCore pfx ns tbl (addNamespaceCore pfx ns tbl rewr).2 =
      ((addNamespaceCore pfx ns tbl rewr).1, (addNamespaceCore pfx ns tbl rewr).2) := by
  by_cases hc : rewriteCond tbl pfx ns = true
  · cases hq : lookupS rewr pfx with
    | none =>
      rw [addNamespaceCore_fresh pfx ns tbl rewr hc hq]
      exact addNamespaceCore_cached pfx ns tbl _ _ (lookupS_cons_self pfx _ rewr)
    | some q =>
      rw [addNamespaceCore_cached pfx ns tbl rewr q hq]
      exact addNamespaceCore_cached pfx ns tbl rewr q hq
  · have hc' : rewriteCond tbl pfx ns = false := by
      cases h : rewriteCond tbl pfx ns
      · rfl
      · exact absurd h hc
    rw [addNamespaceCore_untriggered pfx ns tbl rewr hc']
    exact addNamespaceCore_untriggered pfx ns tbl rewr hc'

/-- After a triggered call, the original prefix is always cached and maps to
the returned prefix. -/
theorem addNamespaceCore_lookup_after (pfx ns : String) (tbl rewr : List (String × String))
    (htrig : rewriteCond tbl pfx ns = true) :
    lookupS (addNamespaceCore pfx ns tbl rewr).2 pfx =
      some (addNamespaceCore pfx ns tbl rewr).1 := by
  cases hq : lookupS rewr pfx with
  | none => rw [addNamespaceCore_fresh pfx ns tbl rewr htrig hq]; exact lookupS_cons_self _ _ _
  | some q => rw [addNamespaceCore_cached pfx ns tbl rewr q hq]; exact hq

/-- Case equation of `getQNameCore`: no parts. -/
theorem getQNameCore_uri_none (store : Store) (u : String)
    (tbl rewr : List (String × String)) (hq : qnameParts store u = none) :
    getQNameCore store (.uri u) tbl rewr = (none, rewr) := by
  unfold getQNameCore
  dsimp only
  rw [hq]

/-- Case equation of `getQNameCore`: illegal dot in the local part. -/
theorem getQNameCore_uri_dot (store : Store) (u pfx ns loc : String)
    (tbl rewr : List (String × String))
    (hq : qnameParts store u = some (pfx, ns, loc)) (hdot : strHasChar loc '.' = true) :
    getQNameCore store (.uri u) tbl rewr = (none, rewr) := by
  unfold getQNameCore
  dsimp only
  rw [hq]
  simp [hdot]

/-- Case equation of `getQNameCore`: successful computation through
`addNamespace`. -/
theorem getQNameCore_uri_ok (store : Store) (u pfx ns loc : String)
    (tbl rewr : List (String × String))
    (hq : qnameParts store u = some (pfx, ns, loc)) (hdot : strHasChar loc '.' = false) :
    getQNameCore store (.uri u) tbl rewr =
      (some ((addNamespaceCore pfx ns tbl rewr).1 ++ ":" ++ loc),
        (addNamespaceCore pfx ns tbl rewr).2) := by
  unfold getQNameCore
  dsimp only
  rw [hq]
  simp [hdot]

/-- Repeating a compact-name computation for the same term is stable. -/
theorem getQNameCore_stable (store : Store) (t : Term) (tbl rewr : List (String × String)) :
    getQNameCore store t tbl (getQNameCore store t tbl rewr).2 =
      getQNameCore store t tbl rewr := by
  rcases t with u | id | ⟨lex, lang, dtype⟩
  · cases hq : qnameParts store u with
    | none => rw [getQNameCore_uri_none store u tbl rewr hq,
        getQNameCore_uri_none store u tbl rewr hq]
    | some pr =>
      obtain ⟨pfx, ns, loc⟩ := pr
      cases hdot : strHasChar loc '.' with
      | true => rw [getQNameCore_uri_dot store u pfx ns loc tbl rewr hq hdot,
          getQNameCore_uri_dot store u pfx ns loc tbl rewr hq hdot]
      | false =>
        rw [getQNameCore_uri_ok store u pfx ns loc tbl rewr hq hdot,
          getQNameCore_uri_ok store u pfx ns loc tbl _ hq hdot,
          addNamespaceCore_stable pfx ns tbl rewr]
  · rfl
  · rfl

/-- Computing a compact name only rewrites the `_ns_rewrite` field, through
the pure core. -/
theorem getQName_eq (ctx : Ctx) (t : Term) (st : St) :
    getQName ctx t st =
      ((getQNameCore ctx.store t st.namespaces st.nsRewrite).1,
        { st with nsRewrite := (getQNameCore ctx.store t st.namespaces st.nsRewrite).2 }) := rfl

/-- A well-formed first/rest chain: every cell supplies exactly the item and
successor that the store queries of the walk would return, ending in a
terminator with neither a first nor a rest statement. -/
inductive Chain (store : Store) : Term → List Term → Prop where
  | nil (node : Term)
      (h1 : firstObject store node rdfFirst = none)
      (h2 : firstObject store node rdfRest = none) :
      Chain store node []
  | cons (node item next : Term) (items : List Term)
      (h1 : firstObject store node rdfFirst = some item)
      (h2 : firstObject store node rdfRest = some next)
      (htl : Chain store next items) :
      Chain store node (item :: items)

/-- The collection walk reproduces a well-formed chain's items, in chain
order, given enough fuel. -/
theorem chainToListAux_eq (store : Store) (node : Term) (items : List Term)
    (hch : Chain store node items) :
    ∀ fuel : Nat, items.length < fuel → chainToListAux store fuel node = items := by
  induction hch with
  | nil n h1 h2 =>
    intro fuel hf
    cases fuel with
    | zero => omega
    | succ m => rw [chainToListAux, h1, h2]; rfl
  | cons n item next items h1 h2 htl ih =>
    intro fuel hf
    cases fuel with
    | zero => omega
    | succ m =>
      rw [chainToListAux, h1, h2]
      dsimp only
      rw [ih m (by simpa using Nat.lt_of_succ_lt_succ hf)]
      rfl

/-- Full behavior of the collection item loop: one list-item element per
item in order (all rendered with the predicate's compact name), non-IRI
items marked visited, IRI items untouched, namespace tables only updated
through the compact-name computation of the predicate. -/
theorem collectionLoop_run (ctx : Ctx) (pd : Term) (ind : String) :
    ∀ (items : List Term) (st : St),
      (collectionLoop ctx pd ind items st).output =
        st.output ++ items.map
          (renderItem ctx ind (getQNameCore ctx.store pd st.namespaces st.nsRewrite).1) ∧
      (∀ t, t ∈ (collectionLoop ctx pd ind items st).serialized ↔
        t ∈ st.serialized ∨ (t ∈ items ∧ isURI t = false)) ∧
      (collectionLoop ctx pd ind items st).namespaces = st.namespaces ∧
      ((collectionLoop ctx pd ind items st).nsRewrite = st.nsRewrite ∨
        (collectionLoop ctx pd ind items st).nsRewrite =
          (getQNameCore ctx.store pd st.namespaces st.nsRewrite).2) := by
  intro items
  induction items with
  | nil =>
    intro st
    refine ⟨by simp [collectionLoop], fun t => by simp [collectionLoop], rfl, Or.inl rfl⟩
  | cons item rest ih =>
    intro st
    rw [collectionLoop]
    have hcore := getQNameCore_stable ctx.store pd st.namespaces st.nsRewrite
    have hq := getQName_eq ctx pd st
    set st1 := emit (renderItem ctx ind (getQName ctx pd st).1 item) (getQName ctx pd st).2 with hst1
    set st2 := if isURI item then st1 else markVisited item st1 with hst2
    have hout2 : st2.output = st.output ++
        [renderItem ctx ind (getQNameCore ctx.store pd st.namespaces st.nsRewrite).1 item] := by
      rw [hst2]
      split
      · rw [hst1, emit_output, hq]
      · rw [markVisited_output, hst1, emit_output, hq]
    have hns2 : st2.namespaces = st.namespaces := by
      rw [hst2]
      split
      · rw [hst1, emit_namespaces, hq]
      · rw [markVisited_namespaces, hst1, emit_namespaces, hq]
    have hrw2 : st2.nsRewrite = (getQNameCore ctx.store pd st.namespaces st.nsRewrite).2 := by
      rw [hst2]
      split
      · rw [hst1, emit_nsRewrite, hq]
      · rw [markVisited_nsRewrite, hst1, emit_nsRewrite, hq]
    have hmem2 : ∀ t, t ∈ st2.serialized ↔
        t ∈ st.serialized ∨ (t = item ∧ isURI item = false) := by
      intro t
      rw [hst2]
      by_cases hU : isURI item = true
      · rw [if_pos hU, hst1, emit_serialized, hq]
        simp [hU]
      · have hU' : isURI item = false := by
          cases h : isURI item
          · rfl
          · exact absurd h hU
        rw [if_neg (by simp [hU']), markVisited_mem]
        rw [hst1, emit_serialized, hq]
        simp [hU']
    obtain ⟨iho, ihs, ihn, ihr⟩ := ih st2
    have hcore2 : getQNameCore ctx.store pd st2.namespaces st2.nsRewrite =
        getQNameCore ctx.store pd st.namespaces st.nsRewrite := by
      rw [hns2, hrw2, hcore]
    refine ⟨?_, ?_, ?_, ?_⟩
    · rw [iho, hcore2, hout2]
      simp
    · intro t
      rw [ihs t, hmem2 t]
      constructor
      · rintro ((h | ⟨rfl, hU⟩) | ⟨hr', hU⟩)
        · exact Or.inl h
        · exact Or.inr ⟨List.mem_cons_self _ _, hU⟩
        · exact Or.inr ⟨List.mem_cons_of_mem _ hr', hU⟩
      · rintro (h | ⟨hm, hU⟩)
        · exact Or.inl (Or.inl h)
        · rcases List.mem_cons.mp hm with rfl | hm'
          · exact Or.inl (Or.inr ⟨rfl, hU⟩)
          · exact Or.inr ⟨hm', hU⟩
    · rw [ihn, hns2]
    · rcases ihr with h | h
      · exact Or.inr (by rw [h, hrw2])
      · exact Or.inr (by rw [h, hcore2])

/-! Claim theorems. -/

/-- Claim C3: within one serialization session, emitting a subject is
idempotent — for every subject, depth and fuel, calling the subject emitter
on an already-visited subject writes nothing and changes no session state
(the returned state is exactly the input state). -/
theorem subject_visited_noop (ctx : Ctx) (fuel : Nat) (s : Term) (depth : Nat)
    (st : St) (hvis : s ∈ st.serialized) :
    subject ctx fuel s depth st = st := by
  cases fuel with
  | zero => rfl
  | succ n => rw [subject, if_pos hvis]

theorem subject_visited_noop_witness :
    Term.uri "http://ex/A" ∈ (St.mk [Term.uri "http://ex/A"] [] [] []).serialized ∧
    subject emptyCtx 5 (.uri "http://ex/A") 1 (St.mk [Term.uri "http://ex/A"] [] [] []) =
      St.mk [Term.uri "http://ex/A"] [] [] [] :=
  ⟨by decide, subject_visited_noop emptyCtx 5 (.uri "http://ex/A") 1
    (St.mk [Term.uri "http://ex/A"] [] [] []) (by decide)⟩

/-- Claim C4: for every configured max_depth that is not positive, serialize
fails synchronously with the assertion message, before any traversal and
with nothing written to the output stream. -/
theorem serialize_rejects_nonpositive_max_depth (obj : SerializerObj)
    (base : Option String) (md : Int) (hmd : md ≤ 0) :
    serializeRun obj base (some md) =
      (some "max_depth must be greater than 0",
        { serialized := [], namespaces := obj.namespaces,
          nsRewrite := obj.nsRewrite, output := [] }) ∧
    (serializeRun obj base (some md)).2.output = [] := by
  have h1 : serializeRun obj base (some md) =
      (some "max_depth must be greater than 0",
        { serialized := [], namespaces := obj.namespaces,
          nsRewrite := obj.nsRewrite, output := [] }) := by
    simp [serializeRun, Option.getD, hmd]
  exact ⟨h1, by rw [h1]⟩

theorem serialize_rejects_nonpositive_max_depth_witness :
    (0 : Int) ≤ 0 ∧
    (serializeRun (initSerializer emptyStore 3) none (some 0) =
      (some "max_depth must be greater than 0",
        { serialized := [], namespaces := [], nsRewrite := [], output := [] }) ∧
    (serializeRun (initSerializer emptyStore 3) none (some 0)).2.output = []) :=
  ⟨by decide, serialize_rejects_nonpositive_max_depth (initSerializer emptyStore 3)
    none 0 (by decide)⟩

/-- Claim C10: the constructor's max_depth argument is never stored or
consulted — serialization is identical for any two constructor values, and
the effective depth limit comes exclusively from serialize's own keyword
argument with default 3. -/
theorem init_max_depth_ignored (store : Store) (md1 md2 : Int)
    (base : Option String) (arg : Option Int) :
    serializeRun (initSerializer store md1) base arg =
      serializeRun (initSerializer store md2) base arg ∧
    serializeRun (initSerializer store md1) base none =
      serializeRun (initSerializer store md1) base (some 3) :=
  ⟨rfl, rfl⟩

/-- Claim C5 counterexample: with an empty namespace table and an empty
rewrite cache, resolving the empty prefix returns it unchanged and caches
nothing — no fresh prefix is generated for an empty prefix, contradicting
the claim's "if prefix is empty ... a fresh prefix ... is generated ... and
cached". -/
theorem addNamespace_empty_prefix_unchanged :
    addNamespace "" "http://ex/" stEmpty = ("", stEmpty) ∧
    lookupS (addNamespace "" "http://ex/" stEmpty).2.nsRewrite "" = none := by
  constructor
  · rfl
  · rfl

/-- Claim C5 (amended): for every call where the prefix is nonempty and
reserved-marked, or already mapped to a different namespace: on the first
such call (prefix uncached) a fresh prefix unused in the namespace table is
generated by repeatedly prepending the marker, and cached keyed by the
original prefix; a call with a cached original prefix returns the cached
rewrite unchanged; and every subsequent call with the original prefix (any
namespace) returns the same cached rewrite with the state fixed. -/
theorem addNamespace_rewrite_spec (st : St) (pfx ns : String)
    (htrig : rewriteCond st.namespaces pfx ns = true) :
    (lookupS st.nsRewrite pfx = none →
      lookupS st.namespaces (addNamespace pfx ns st).1 = none ∧
      (∃ k, 1 ≤ k ∧ (addNamespace pfx ns st).1 = prependP k pfx) ∧
      lookupS (addNamespace pfx ns st).2.nsRewrite pfx = some (addNamespace pfx ns st).1) ∧
    (∀ q, lookupS st.nsRewrite pfx = some q →
      (addNamespace pfx ns st).1 = q ∧ (addNamespace pfx ns st).2 = st) ∧
    (∀ ns2, addNamespace pfx ns2 (addNamespace pfx ns st).2 =
      ((addNamespace pfx ns st).1, (addNamespace pfx ns st).2)) := by
  refine ⟨?_, ?_, ?_⟩
  · intro hnc
    have hfresh := addNamespaceCore_fresh pfx ns st.namespaces st.nsRewrite htrig hnc
    have h1 : (addNamespace pfx ns st).1 = genPfx st.namespaces ("p" ++ pfx) := by
      unfold addNamespace
      rw [hfresh]
    refine ⟨?_, ?_, ?_⟩
    · rw [h1]
      unfold lookupS
      rw [genPfx_fresh st.namespaces ("p" ++ pfx)]
      rfl
    · obtain ⟨k, hk⟩ := genPfxAux_shape st.namespaces (st.namespaces.length + 1) ("p" ++ pfx)
      refine ⟨k + 1, by omega, ?_⟩
      rw [h1]
      unfold genPfx
      rw [hk, prependP_shift]
    · have h2 : (addNamespace pfx ns st).2.nsRewrite =
          (pfx, genPfx st.namespaces ("p" ++ pfx)) :: st.nsRewrite := by
        unfold addNamespace
        rw [hfresh]
      rw [h2, h1, lookupS_cons_self]
  · intro q hq
    have hc := addNamespaceCore_cached pfx ns st.namespaces st.nsRewrite q hq
    constructor
    · unfold addNamespace
      rw [hc]
    · unfold addNamespace
      rw [hc]
  · intro ns2
    have hafter := addNamespaceCore_lookup_after pfx ns st.namespaces st.nsRewrite htrig
    have hc2 := addNamespaceCore_cached pfx ns2 st.namespaces
      (addNamespaceCore pfx ns st.namespaces st.nsRewrite).2
      (addNamespaceCore pfx ns st.namespaces st.nsRewrite).1 hafter
    unfold addNamespace
    rw [hc2]

/-- Input state for the claim C5 witness: the generated candidate collides
with an existing table key once, forcing two marker prependings. -/
def st5 : St :=
  { serialized := [], namespaces := [("p_x", "n1")], nsRewrite := [], output := [] }

theorem addNamespace_rewrite_spec_witness :
    rewriteCond st5.namespaces "_x" "n2" = true ∧
    ((lookupS st5.nsRewrite "_x" = none →
      lookupS st5.namespaces (addNamespace "_x" "n2" st5).1 = none ∧
      (∃ k, 1 ≤ k ∧ (addNamespace "_x" "n2" st5).1 = prependP k "_x") ∧
      lookupS (addNamespace "_x" "n2" st5).2.nsRewrite "_x" =
        some (addNamespace "_x" "n2" st5).1) ∧
    (∀ q, lookupS st5.nsRewrite "_x" = some q →
      (addNamespace "_x" "n2" st5).1 = q ∧ (addNamespace "_x" "n2" st5).2 = st5) ∧
    (∀ ns2, addNamespace "_x" ns2 (addNamespace "_x" "n2" st5).2 =
      ((addNamespace "_x" "n2" st5).1, (addNamespace "_x" "n2" st5).2))) :=
  ⟨by decide, addNamespace_rewrite_spec st5 "_x" "n2" (by decide)⟩

def loneCtx : Ctx := { store := loneBnodeStore, base := none, maxDepth := 3 }
def singleRefCtx : Ctx := { store := singleRefStore, base := none, maxDepth := 3 }
def bnodeListCtx : Ctx := { store := bnodeListStore, base := none, maxDepth := 3 }
def classRefCtx : Ctx := { store := classRefStore, base := none, maxDepth := 3 }
def classListCtx : Ctx := { store := classListStore, base := none, maxDepth := 3 }
def listCtx : Ctx := { store := listStore, base := none, maxDepth := 3 }

/-- Recognizer for opening subject blocks. -/
def isOpenBlockEvent : Event → Bool
  | .subjOpenAbout _ _ _ => true
  | .subjOpen _ _ => true
  | _ => false

/-- Recognizer for the two writes forming a reference-only element. -/
def isRefElementEvent : Event → Bool
  | .relOpen _ _ => true
  | .resourceAttr _ => true
  | _ => false

/-- Claim C8: whenever a blank node is materialized, its opening block
carries the fixed-up local id as identifying attribute exactly when the node
occurs as object in more than one statement; with at most one occurrence the
opening block carries no identifying attribute. -/
theorem subject_bnode_about_attr (ctx : Ctx) (fuel : Nat) (id : String)
    (depth : Nat) (st : St) (hnv : Term.bnode id ∉ st.serialized) :
    ∃ qe δ, (subject ctx (fuel + 1) (.bnode id) depth st).output =
      st.output ++ ((if 1 < objCount ctx.store (.bnode id) then
          Event.subjOpenAbout (indentStr depth) qe (fix id)
        else Event.subjOpen (indentStr depth) qe) :: δ) := by
  obtain ⟨δ, hδ⟩ := subject_open ctx fuel (.bnode id) depth st hnv
  exact ⟨(getQName ctx (elementOf (selectType ctx.store (.bnode id)))
    (markVisited (.bnode id) st)).1, δ, hδ⟩

theorem subject_bnode_about_attr_witness :
    Term.bnode "x8" ∉ stEmpty.serialized ∧
    (∃ qe δ, (subject loneCtx (4 + 1) (.bnode "x8") 1 stEmpty).output =
      stEmpty.output ++ ((if 1 < objCount loneCtx.store (.bnode "x8") then
          Event.subjOpenAbout (indentStr 1) qe (fix "x8")
        else Event.subjOpen (indentStr 1) qe) :: δ)) :=
  ⟨by decide, subject_bnode_about_attr loneCtx 4 "x8" 1 stEmpty (by decide)⟩

/-- Claim C6 (amended): when the predicate emitter reaches a blank-node
object that is not a collection head, not yet materialized, has at least one
outgoing statement and occurs as object of exactly one statement in the
graph, the object is inlined as a nested subject block (it is marked visited
and its opening block is written into the output) even though the depth
exceeds maxDepth. -/
theorem predicate_single_ref_bnode_inlined (ctx : Ctx) (fuel : Nat) (pd : Term)
    (id : String) (depth : Nat) (st : St)
    (hnv : Term.bnode id ∉ st.serialized)
    (hout : hasOutgoing ctx.store (.bnode id) = true)
    (hone : objCount ctx.store (.bnode id) = 1)
    (hdeep : ctx.maxDepth < (depth : Int))
    (hlist : listHeadTruthy ctx.store (.bnode id) = false) :
    Term.bnode id ∈ (predicate ctx (fuel + 2) pd (.bnode id) depth st).serialized ∧
    ∃ qe, Event.subjOpen (indentStr (depth + 1)) qe ∈
      (predicate ctx (fuel + 2) pd (.bnode id) depth st).output := by
  rw [show fuel + 2 = (fuel + 1) + 1 from rfl, predicate]
  rotate_left
  · intro lex lang dtype h
    exact Term.noConfusion h
  rw [if_neg (by simp [hnv, hout])]
  rw [if_neg (by simp [hlist])]
  dsimp only
  rw [if_neg (by simp [isURI])]
  rw [if_neg (by exact fun h => absurd h (not_le.mpr hdeep))]
  rw [if_pos (by
    simp only [emit_serialized, getQName_serialized]
    simp [hnv, hout, hone])]
  constructor
  · rw [emit_serialized, emit_serialized]
    exact subject_marks ctx fuel (.bnode id) (depth + 1) _
  · have hnv2 : Term.bnode id ∉ (emit Event.gt
        (emit (Event.relOpen (indentStr depth) (getQName ctx pd st).1)
          (getQName ctx pd st).2)).serialized := by
      simpa only [emit_serialized, getQName_serialized] using hnv
    obtain ⟨δ, hδ⟩ := subject_open ctx fuel (.bnode id) (depth + 1) _ hnv2
    rw [emit_output, emit_output, hδ]
    have hopen : ∀ q : Option String,
        openEvent ctx (.bnode id) (indentStr (depth + 1)) q =
          Event.subjOpen (indentStr (depth + 1)) q := by
      intro q
      unfold openEvent
      dsimp only
      rw [if_neg (by simp [hone])]
    rw [hopen]
    refine ⟨(getQName ctx (elementOf (selectType ctx.store (.bnode id)))
      (markVisited (.bnode id) (emit Event.gt
        (emit (Event.relOpen (indentStr depth) (getQName ctx pd st).1)
          (getQName ctx pd st).2)))).1, ?_⟩
    simp

theorem predicate_single_ref_bnode_inlined_witness :
    (Term.bnode "n6" ∉ stEmpty.serialized ∧
      hasOutgoing singleRefCtx.store (.bnode "n6") = true ∧
      objCount singleRefCtx.store (.bnode "n6") = 1 ∧
      singleRefCtx.maxDepth < ((4 : Nat) : Int) ∧
      listHeadTruthy singleRefCtx.store (.bnode "n6") = false) ∧
    (Term.bnode "n6" ∈ (predicate singleRefCtx (0 + 2) exP (.bnode "n6") 4 stEmpty).serialized ∧
    ∃ qe, Event.subjOpen (indentStr (4 + 1)) qe ∈
      (predicate singleRefCtx (0 + 2) exP (.bnode "n6") 4 stEmpty).output) :=
  ⟨⟨by decide, by decide, by decide, by decide, by decide⟩,
    predicate_single_ref_bnode_inlined singleRefCtx 0 exP "n6" 4 stEmpty
      (by decide) (by decide) (by decide) (by decide) (by decide)⟩

/-- Claim C6 counterexample: a blank node satisfying every condition of the
claim (unvisited, outgoing statements, object of exactly one statement,
depth past maxDepth) that is also a collection head is flattened into
list-item elements — no nested subject block is emitted for it. -/
theorem predicate_single_ref_bnode_list_head_cx :
    (Term.bnode "l" ∉ stEmpty.serialized ∧
      hasOutgoing bnodeListStore (.bnode "l") = true ∧
      objCount bnodeListStore (.bnode "l") = 1 ∧
      bnodeListCtx.maxDepth < ((4 : Nat) : Int)) ∧
    (predicate bnodeListCtx 10 exP (.bnode "l") 4 stEmpty).output =
      [Event.inlistProp (indentStr 4) (some "ex:p") "1"] ∧
    (predicate bnodeListCtx 10 exP (.bnode "l") 4 stEmpty).output.all
      (fun e => !isOpenBlockEvent e) = true := by
  exact ⟨⟨by decide, by decide, by decide, by decide⟩, by decide, by decide⟩

/-- Case equation: the reference branch for an IRI object. -/
theorem refCase_uri (ctx : Ctx) (pd : Term) (u : String) (ind : String) (st : St) :
    refCase ctx pd (.uri u) ind st =
      emit .divEnd (emit (.resourceAttr (relativize ctx.base u))
        (emit (.relOpen ind (getQName ctx pd st).1) (getQName ctx pd st).2)) := rfl

/-- Claim C7 (amended): for every edge whose IRI object is typed as a
vocabulary class term and is not a collection head, the predicate emitter
emits exactly a reference-only element (relation, resource, close) and marks
nothing visited, at every depth and maxDepth. -/
theorem predicate_class_typed_referenced (ctx : Ctx) (fuel : Nat) (pd : Term)
    (u : String) (depth : Nat) (st : St)
    (hcls : classTyped ctx.store (.uri u) = true)
    (hlist : listHeadTruthy ctx.store (.uri u) = false) :
    ∃ qp, (predicate ctx (fuel + 1) pd (.uri u) depth st).output =
        st.output ++ [Event.relOpen (indentStr depth) qp,
          Event.resourceAttr (relativize ctx.base u), Event.divEnd] ∧
      (predicate ctx (fuel + 1) pd (.uri u) depth st).serialized = st.serialized := by
  rw [predicate]
  rotate_left
  · intro lex lang dtype h
    exact Term.noConfusion h
  have htail : ∀ r : String,
      (emit Event.divEnd (emit (Event.resourceAttr r)
        (emit (Event.relOpen (indentStr depth) (getQName ctx pd st).1)
          (getQName ctx pd st).2))).output =
        st.output ++ [Event.relOpen (indentStr depth) (getQName ctx pd st).1,
          Event.resourceAttr r, Event.divEnd] ∧
      (emit Event.divEnd (emit (Event.resourceAttr r)
        (emit (Event.relOpen (indentStr depth) (getQName ctx pd st).1)
          (getQName ctx pd st).2))).serialized = st.serialized := by
    intro r
    constructor
    · rw [emit_output, emit_output, emit_output, getQName_output]
      simp
    · rfl
  split
  · rw [refCase_uri]
    exact ⟨(getQName ctx pd st).1, (htail _).1, (htail _).2⟩
  split
  · rename_i hcontra
    rw [hlist] at hcontra
    exact absurd hcontra (by simp)
  · dsimp only
    rw [if_pos (by simp [hcls, isURI])]
    exact ⟨(getQName ctx pd st).1, (htail _).1, (htail _).2⟩

theorem predicate_class_typed_referenced_witness :
    (classTyped classRefCtx.store (.uri "http://ex/O") = true ∧
      listHeadTruthy classRefCtx.store (.uri "http://ex/O") = false) ∧
    (∃ qp, (predicate classRefCtx (9 + 1) exP (.uri "http://ex/O") 1 stEmpty).output =
        stEmpty.output ++ [Event.relOpen (indentStr 1) qp,
          Event.resourceAttr (relativize classRefCtx.base "http://ex/O"), Event.divEnd] ∧
      (predicate classRefCtx (9 + 1) exP (.uri "http://ex/O") 1 stEmpty).serialized =
        stEmpty.serialized) :=
  ⟨⟨by decide, by decide⟩,
    predicate_class_typed_referenced classRefCtx 9 exP "http://ex/O" 1 stEmpty
      (by decide) (by decide)⟩

/-- Claim C7 counterexample: a class-typed IRI object that is also a
collection head is flattened into list-item elements — no reference-only
element (no relation or resource write) is emitted for the edge. -/
theorem predicate_class_typed_list_head_cx :
    classTyped classListStore (.uri "http://ex/O") = true ∧
    (predicate classListCtx 10 exP (.uri "http://ex/O") 2 stEmpty).output =
      [Event.inlistProp (indentStr 2) (some "ex:p") "1"] ∧
    (predicate classListCtx 10 exP (.uri "http://ex/O") 2 stEmpty).output.all
      (fun e => !isRefElementEvent e) = true := by
  exact ⟨by decide, by decide, by decide⟩

/-- Claim C9: for every well-formed first/rest chain rooted at a collection
head, the walk reproduces the items in original chain order, the loop emits
exactly one list-item element per chain entry in that order, and afterwards
a term is visited iff it already was or is a non-IRI chain item (every blank
node and literal item is marked visited, IRI items are not). -/
theorem collection_flatten_spec (ctx : Ctx) (pd head : Term) (ind : String)
    (items : List Term) (st : St)
    (hch : Chain ctx.store head items)
    (hlen : items.length ≤ ctx.store.statements.length) :
    chainToList ctx.store head = items ∧
    ∃ qp, (collectionLoop ctx pd ind items st).output =
        st.output ++ items.map (renderItem ctx ind qp) ∧
      (∀ t, t ∈ (collectionLoop ctx pd ind items st).serialized ↔
        t ∈ st.serialized ∨ (t ∈ items ∧ isURI t = false)) := by
  obtain ⟨ho, hs, _, _⟩ := collectionLoop_run ctx pd ind items st
  refine ⟨?_, ⟨(getQNameCore ctx.store pd st.namespaces st.nsRewrite).1, ho, hs⟩⟩
  exact chainToListAux_eq ctx.store head items hch (ctx.store.statements.length + 1)
    (by omega)

theorem collection_flatten_spec_witness :
    (Chain listStore (.bnode "l1") [.lit "1" none none, .lit "2" none none] ∧
      ([Term.lit "1" none none, Term.lit "2" none none].length ≤
        listStore.statements.length)) ∧
    (chainToList listStore (.bnode "l1") = [.lit "1" none none, .lit "2" none none] ∧
    ∃ qp, (collectionLoop listCtx exP (indentStr 2)
        [.lit "1" none none, .lit "2" none none] stEmpty).output =
        stEmpty.output ++ [Term.lit "1" none none, Term.lit "2" none none].map
          (renderItem listCtx (indentStr 2) qp) ∧
      (∀ t, t ∈ (collectionLoop listCtx exP (indentStr 2)
          [.lit "1" none none, .lit "2" none none] stEmpty).serialized ↔
        t ∈ stEmpty.serialized ∨
          (t ∈ [Term.lit "1" none none, Term.lit "2" none none] ∧ isURI t = false))) := by
  have hch : Chain listStore (.bnode "l1") [.lit "1" none none, .lit "2" none none] :=
    Chain.cons _ _ (.bnode "l2") _ (by decide) (by decide)
      (Chain.cons _ _ rdfNil _ (by decide) (by decide)
        (Chain.nil _ (by decide) (by decide)))
  exact ⟨⟨hch, by decide⟩,
    collection_flatten_spec listCtx exP (.bnode "l1") (indentStr 2)
      [.lit "1" none none, .lit "2" none none] stEmpty hch (by decide)⟩

/-- Claim C1 counterexample: on the chain A→B→C→D with maxDepth 2 and
top-level subject A, the edge B→C is written as a resource reference (so C
is not inlined inside B: every materialization of C happens at top-level
indentation, never nested), contradicting "inlines C inside B". -/
theorem serialize_chain_c_not_inlined :
    ((serializeRun (initSerializer chainStore 3) none (some 2)).2.output.any
      (fun e => e == Event.resourceAttr "http://ex/C") = true) ∧
    ((serializeRun (initSerializer chainStore 3) none (some 2)).2.output.any
      (fun e => match e with
        | Event.subjOpenAbout ind _ a => a == "http://ex/C" && ind != "\n  "
        | _ => false) = false) := by
  exact ⟨by decide, by decide⟩

/-- Claim C1 (amended): on the chain A→B→C→D serialized with maxDepth 2
starting from top-level subject A, B is inlined inside A as a nested block;
C is emitted inside B as a reference-only element (the depth limit is
reached after one inline level because the depth counter advances by two per
nesting level); C is then materialized as its own top-level block, and D —
which has no outgoing statements — is emitted as a reference-only element
inside it.  The full run is exactly this event stream. -/
theorem serialize_chain_maxdepth_two_output :
    serializeRun (initSerializer chainStore 3) none (some 2) =
      (none,
        { serialized := [.uri "http://ex/A", .uri "http://ex/B", .uri "http://ex/C"],
          namespaces := [],
          nsRewrite := [],
          output := [Event.rootOpen,
            Event.rootNs "rdf" "http://www.w3.org/1999/02/22-rdf-syntax-ns#",
            Event.rootNs "ex" "http://ex/",
            Event.rootGt,
            Event.subjOpenAbout "\n  " (some "rdfs:Resource") "http://ex/A",
            Event.relOpen "\n    " (some "ex:p"),
            Event.gt,
            Event.subjOpenAbout "\n      " (some "rdfs:Resource") "http://ex/B",
            Event.relOpen "\n        " (some "ex:p"),
            Event.resourceAttr "http://ex/C",
            Event.divEnd,
            Event.subjClose "\n      ",
            Event.indentText "\n    ",
            Event.divEnd,
            Event.subjClose "\n  ",
            Event.subjOpenAbout "\n  " (some "rdfs:Resource") "http://ex/C",
            Event.relOpen "\n    " (some "ex:p"),
            Event.resourceAttr "http://ex/D",
            Event.divEnd,
            Event.subjClose "\n  ",
            Event.rootClose] }) := by
  decide

/-- Claim C2: the blank node `b` of the sweep store is a subject of the
graph, the run succeeds, yet `b` is never materialized: the final sweep
calls the subject emitter on the stale loop variable (the last subject of
the second pass) instead of the unvisited blank node, so `b` is still
unvisited when serialize returns and no anonymous block was ever opened. -/
theorem serialize_sweep_misses_unvisited_bnode :
    (Term.bnode "b") ∈ sweepStore.statements.map (fun t => t.subj) ∧
    (serializeRun (initSerializer sweepStore 3) none none).1 = none ∧
    Term.bnode "b" ∉ (serializeRun (initSerializer sweepStore 3) none none).2.serialized ∧
    (serializeRun (initSerializer sweepStore 3) none none).2.output.any
      (fun e => match e with
        | Event.subjOpen _ _ => true
        | _ => false) = false := by
  exact ⟨by decide, by decide, by decide, by decide⟩
